import Mathlib

/-!
Verification development for `layers.py`: a Graphormer/Dynaformer-style
encoder layer (centrality, spatial and edge-path encodings, masked
attention heads, multi-head attention and a pre-norm residual block).

The embedding works over exact real arithmetic (`ℝ`).  A torch tensor of
shape `(n, m)` is a function `Fin n → Fin m → ℝ`.  Operations that can
raise at runtime (the scalar-cell assignment in `EdgeEncoding.forward`)
return `Option`.  Loops that write into tensor slices are modelled as
`List.foldl` over the written blocks, mirroring statement order.
-/

namespace GraphormerLayers

/-- Dot product of two real vectors: torch elementwise product followed by a
sum over the shared dimension. -/
def dotProd {d : ℕ} (v w : Fin d → ℝ) : ℝ := ∑ t, v t * w t

/-- `decrease_to_max_value(x, max_value)` from `layers.py`, applied to one
integer entry: `x[x > max_value] = max_value`. -/
def decrease_to_max_value (x maxValue : ℕ) : ℕ :=
  if x > maxValue then maxValue else x

lemma decrease_to_max_value_le (x m : ℕ) : decrease_to_max_value x m ≤ m := by
  unfold decrease_to_max_value
  split <;> omega

lemma decrease_to_max_value_eq_min (x m : ℕ) :
    decrease_to_max_value x m = min x m := by
  unfold decrease_to_max_value
  split <;> omega

/-! ## CentralityEncoding -/

/-- Learned parameters of `CentralityEncoding`: the two degree-indexed
embedding tables `z_in : (max_in_degree, node_dim)` and
`z_out : (max_out_degree, node_dim)`. -/
structure CentralityParams (maxIn maxOut D : ℕ) where
  z_in : Fin maxIn → Fin D → ℝ
  z_out : Fin maxOut → Fin D → ℝ

/-- `torch_geometric.utils.degree` on `edge_index[1]`: the number of edges
whose destination is `i`.  The source stores `edge_index` as a `(2, E)`
tensor; here it is the list of `(source, destination)` pairs. -/
def inDegree {n : ℕ} (edges : List (Fin n × Fin n)) (i : Fin n) : ℕ :=
  (edges.filter (fun e => decide (e.2 = i))).length

/-- `torch_geometric.utils.degree` on `edge_index[0]`: the number of edges
whose source is `i`. -/
def outDegree {n : ℕ} (edges : List (Fin n × Fin n)) (i : Fin n) : ℕ :=
  (edges.filter (fun e => decide (e.1 = i))).length

/-- `CentralityEncoding.forward`: clamp each node's in/out degree with
`decrease_to_max_value(·, max_degree - 1)`, then add the two looked-up
embedding rows to `x`.  The hypotheses `hin`, `hout` record that the
embedding tables are nonempty, so the clamped degrees are valid rows. -/
def centralityForward {n maxIn maxOut D : ℕ} (p : CentralityParams maxIn maxOut D)
    (hin : 0 < maxIn) (hout : 0 < maxOut)
    (x : Fin n → Fin D → ℝ) (edges : List (Fin n × Fin n)) : Fin n → Fin D → ℝ :=
  fun i d =>
    x i d
      + p.z_in ⟨decrease_to_max_value (inDegree edges i) (maxIn - 1), by
          have h := decrease_to_max_value_le (inDegree edges i) (maxIn - 1); omega⟩ d
      + p.z_out ⟨decrease_to_max_value (outDegree edges i) (maxOut - 1), by
          have h := decrease_to_max_value_le (outDegree edges i) (maxOut - 1); omega⟩ d

/-! ## EdgeEncoding -/

/-- Learned parameters of `EdgeEncoding`: the positional weight table
`edge_weights : (max_path_distance, edge_dim)`. -/
structure EdgeParams (edgeDim maxPD : ℕ) where
  edge_weights : Fin maxPD → Fin edgeDim → ℝ

/-- The `edge_paths` argument: `{src: {dst: [edge index, ...]}}`, modelled as
nested association lists (iteration order preserved). -/
abbrev EdgePaths (n E : ℕ) := List (Fin n × List (Fin n × List (Fin E)))

/-- The per-pair tensor `(self.edge_weights[:len(path)] * edge_attr[path]).sum(dim=1)`
computed by `EdgeEncoding.forward` after `path = path[:self.max_path_distance]`:
one entry per remaining path position, each the dot product of the
position's weight row with the edge's feature row.  Zipping the truncated
path with `List.finRange maxPD` pairs each edge with its position. -/
def pathEncoding {E edgeDim maxPD : ℕ} (w : Fin maxPD → Fin edgeDim → ℝ)
    (edge_attr : Fin E → Fin edgeDim → ℝ) (path : List (Fin E)) : List ℝ :=
  ((path.take maxPD).zip (List.finRange maxPD)).map
    (fun pe => ∑ t, w pe.2 t * edge_attr pe.1 t)

/-- The torch assignment `cij[src][dst] = value` where `value` is 1-D:
PyTorch broadcasts a one-element tensor into the scalar cell and raises a
shape-mismatch `RuntimeError` for any other length (including length 0). -/
def setScalarCell {n : ℕ} (M : Fin n → Fin n → ℝ) (src dst : Fin n) :
    List ℝ → Option (Fin n → Fin n → ℝ)
  | [v] => some (fun i j => if i = src ∧ j = dst then v else M i j)
  | _ => none

/-- `torch.nan_to_num`: over exact real arithmetic no NaN or infinite values
arise, so the map is the identity. -/
def nanToNum {n : ℕ} (M : Fin n → Fin n → ℝ) : Fin n → Fin n → ℝ := M

/-- `EdgeEncoding.forward`: start from an all-zero `(n, n)` tensor, loop over
`edge_paths.items()` and each inner `destinations.items()`, truncate the
path, build the per-position encoding and assign it into the scalar cell;
finally apply `torch.nan_to_num`.  `none` models a raised exception. -/
def edgeEncodingForward {n E edgeDim maxPD : ℕ} (p : EdgeParams edgeDim maxPD)
    (edge_attr : Fin E → Fin edgeDim → ℝ) (edge_paths : EdgePaths n E) :
    Option (Fin n → Fin n → ℝ) :=
  (edge_paths.foldl
    (fun M se =>
      se.2.foldl
        (fun M' de =>
          M'.bind (fun m =>
            setScalarCell m se.1 de.1 (pathEncoding p.edge_weights edge_attr de.2)))
        M)
    (some (fun _ _ => 0))).map nanToNum

/-! ## SpatialEncoding -/

/-- Learned parameters of `SpatialEncoding`: per-head Gaussian `means`/`stds`
and the projection vector `weights_dist : (2 * embedding_size + 1)`. -/
structure SpatialParams (H D : ℕ) where
  means : Fin H → ℝ
  stds : Fin H → ℝ
  weights_dist : Fin (2 * D + 1) → ℝ

/-- `torch.linalg.vector_norm(coords, ord=2, dim=1) ** 2` for one row: the
2-norm (square root of the sum of squares), squared again.  The sqrt-square
round trip of the source is kept, not simplified away. -/
noncomputable def sqNorm {C : ℕ} (v : Fin C → ℝ) : ℝ := Real.sqrt (∑ t, v t ^ 2) ^ 2

/-- The argument handed to `torch.sqrt` in `SpatialEncoding.forward`:
`norms - 2 * coords @ coords.T + norms.T` at entry `(i, j)`. -/
noncomputable def distArg {n C : ℕ} (coords : Fin n → Fin C → ℝ) (i j : Fin n) : ℝ :=
  sqNorm (coords i) - 2 * dotProd (coords i) (coords j) + sqNorm (coords j)

/-- The pairwise distance matrix `torch.sqrt(norms - 2 * coords @ coords.T + norms.T)`. -/
noncomputable def distances {n C : ℕ} (coords : Fin n → Fin C → ℝ) (i j : Fin n) : ℝ :=
  Real.sqrt (distArg coords i j)

/-- The scalar obtained for the pair `(i, j)` after concatenating
`[x[i], distance, x[j]]` (length `2 * D + 1`) and projecting through
`weights_dist`.  Flat index `t` is `x[i][t]`, index `D` the distance, and
index `D + 1 + t` is `x[j][t]`, matching `torch.cat((x1, dist, x0), dim=-1)`. -/
def concatScore {n D H : ℕ} (p : SpatialParams H D)
    (x : Fin n → Fin D → ℝ) (dist : ℝ) (i j : Fin n) : ℝ :=
  (∑ t : Fin D, x i t * p.weights_dist ⟨t.1, by have h := t.2; omega⟩)
    + dist * p.weights_dist ⟨D, by omega⟩
    + (∑ t : Fin D, x j t * p.weights_dist ⟨D + 1 + t.1, by have h := t.2; omega⟩)

/-- `SpatialEncoding.forward`: per head `h`,
`exp((score - means[h]) ** 2 / (2 * stds[h] ** 2))` (the sign of the
exponent is the source's), then mean pooling over the `H` heads. -/
noncomputable def spatialForward {n D H : ℕ} (p : SpatialParams H D)
    (x : Fin n → Fin D → ℝ) (coords : Fin n → Fin 3 → ℝ) : Fin n → Fin n → ℝ :=
  fun i j =>
    (∑ h : Fin H,
        Real.exp ((concatScore p x (distances coords i j) i j - p.means h) ^ 2
          / (2 * p.stds h ^ 2))) / (H : ℝ)

/-- The floating-point pipeline of `SpatialEncoding.forward` can produce NaN
at exactly two places: `torch.sqrt` of a negative argument, and the
division `(score - mean) ** 2 / (2 * std ** 2)` when a std parameter is
zero.  This predicate states that both hazards are absent. -/
def spatialNaNFree {n C D H : ℕ} (p : SpatialParams H D)
    (coords : Fin n → Fin C → ℝ) : Prop :=
  (∀ i j : Fin n, 0 ≤ distArg coords i j) ∧ (∀ h : Fin H, p.stds h ≠ 0)

/-! ## GraphormerAttentionHead -/

/-- Learned parameters of an `nn.Linear(dIn, dOut)` layer, generalised over
index types so the multi-head concatenation can reuse it.  Forward is
`x @ weight.T + bias`. -/
structure LinearParams (ι κ : Type) where
  weight : κ → ι → ℝ
  bias : κ → ℝ

/-- `nn.Linear` forward on a stack of `n` row vectors. -/
def linearForward {n : ℕ} {ι κ : Type} [Fintype ι]
    (p : LinearParams ι κ) (x : Fin n → ι → ℝ) : Fin n → κ → ℝ :=
  fun i o => (∑ t, x i t * p.weight o t) + p.bias o

/-- Parameters of `GraphormerAttentionHead`.  The source declares separate
`dim_q` and `dim_k`, but `query.mm(key.transpose(0, 1))` in `compute_a`
is only defined when they coincide, so the embedding uses one `dimQK`. -/
structure HeadParams (dimIn dimQK edgeDim maxPD : ℕ) where
  edge_encoding : EdgeParams edgeDim maxPD
  q : LinearParams (Fin dimIn) (Fin dimQK)
  k : LinearParams (Fin dimIn) (Fin dimQK)
  v : LinearParams (Fin dimIn) (Fin dimQK)

/-- The row ranges visited by `for i in range(len(ptr) - 1)`: consecutive
pairs `(ptr[i], ptr[i+1])`. -/
def blocksOf (ptr : List ℕ) : List (ℕ × ℕ) := ptr.zip ptr.tail

/-- Membership of the entry `(i, j)` in the square slice
`[p:q, p:q]` of one block `pq = (p, q)`. -/
def inBlock (pq : ℕ × ℕ) (i j : ℕ) : Prop :=
  pq.1 ≤ i ∧ i < pq.2 ∧ pq.1 ≤ j ∧ j < pq.2

instance (pq : ℕ × ℕ) (i j : ℕ) : Decidable (inBlock pq i j) := by
  unfold inBlock
  infer_instance

/-- The slice-assignment loop
`for i in range(len(ptr) - 1): M[ptr[i]:ptr[i+1], ptr[i]:ptr[i+1]] = 1`
starting from `init`. -/
def fillBlocks {n : ℕ} (init : Fin n → Fin n → ℝ) (ptr : List ℕ) :
    Fin n → Fin n → ℝ :=
  (blocksOf ptr).foldl
    (fun M pq => fun i j => if inBlock pq i.1 j.1 then 1 else M i j) init

/-- `batch_mask_neg_inf` as used after the `if/else` on `ptr`: all ones when
`ptr` is `None`, otherwise a `(n, n)` tensor filled with `-1e6` whose
block-diagonal slices are overwritten with `1`. -/
def batchMaskNegInf {n : ℕ} (ptr : Option (List ℕ)) : Fin n → Fin n → ℝ :=
  match ptr with
  | none => fun _ _ => 1
  | some p => fillBlocks (fun _ _ => -1000000) p

/-- `batch_mask_zeros` after the `if/else` on `ptr`: `zeros + 1` when `ptr`
is `None`, otherwise zeros with the block-diagonal slices set to `1`. -/
def batchMaskZeros {n : ℕ} (ptr : Option (List ℕ)) : Fin n → Fin n → ℝ :=
  match ptr with
  | none => fun _ _ => 0 + 1
  | some p => fillBlocks (fun _ _ => 0) p

/-- `GraphormerAttentionHead.compute_a`: the full scaled score matrix
`query.mm(key.transpose(0, 1)) / query.size(-1) ** 0.5` when `ptr` is
`None`; otherwise a zero tensor whose block-diagonal slices are filled
with the blockwise scaled scores. -/
noncomputable def compute_a {n d : ℕ} (key query : Fin n → Fin d → ℝ)
    (ptr : Option (List ℕ)) : Fin n → Fin n → ℝ :=
  match ptr with
  | none => fun i j => dotProd (query i) (key j) / Real.sqrt d
  | some p =>
      (blocksOf p).foldl
        (fun M pq => fun i j =>
          if inBlock pq i.1 j.1 then dotProd (query i) (key j) / Real.sqrt d
          else M i j)
        (fun _ _ => 0)

/-- Row-wise `torch.softmax(·, dim=-1)`. -/
noncomputable def softmaxRow {n : ℕ} (v : Fin n → ℝ) (j : Fin n) : ℝ :=
  Real.exp (v j) / ∑ t, Real.exp (v t)

/-- The masked pre-softmax scores `a = (a + b + c) * batch_mask_neg_inf`
of `GraphormerAttentionHead.forward`. -/
def maskedScores {n : ℕ} (a b c : Fin n → Fin n → ℝ)
    (ptr : Option (List ℕ)) : Fin n → Fin n → ℝ :=
  fun i j => (a i j + b i j + c i j) * batchMaskNegInf ptr i j

/-- The post-softmax weights
`softmax = torch.softmax(a, dim=-1) * batch_mask_zeros` of
`GraphormerAttentionHead.forward`. -/
noncomputable def postSoftmax {n : ℕ} (a b c : Fin n → Fin n → ℝ)
    (ptr : Option (List ℕ)) : Fin n → Fin n → ℝ :=
  fun i j =>
    softmaxRow (fun t => maskedScores a b c ptr i t) j * batchMaskZeros ptr i j

/-- `GraphormerAttentionHead.forward`: project `x` to query/key/value, get
`c` from `EdgeEncoding` (which may raise, hence `Option`), `a` from
`compute_a`, mask, softmax, and multiply by the value matrix. -/
noncomputable def headForward {n E dimIn dimQK edgeDim maxPD : ℕ}
    (p : HeadParams dimIn dimQK edgeDim maxPD)
    (x : Fin n → Fin dimIn → ℝ) (edge_attr : Fin E → Fin edgeDim → ℝ)
    (b : Fin n → Fin n → ℝ) (edge_paths : EdgePaths n E)
    (ptr : Option (List ℕ)) : Option (Fin n → Fin dimQK → ℝ) :=
  (edgeEncodingForward p.edge_encoding edge_attr edge_paths).map (fun c =>
    fun i o => ∑ j, postSoftmax
      (compute_a (linearForward p.k x) (linearForward p.q x) ptr) b c ptr i j
      * linearForward p.v x j o)

/-! ## GraphormerMultiHeadAttention -/

/-- Gather results of the attention heads: the value is defined only when
every head's forward completed (any raised exception propagates). -/
def collectHeads {H : ℕ} {α : Type} (f : Fin H → Option α) : Option (Fin H → α) :=
  if h : ∀ i, (f i).isSome then some (fun i => (f i).get (h i)) else none

/-- Parameters of `GraphormerMultiHeadAttention`: `num_heads` attention heads
and the final `nn.Linear(num_heads * dim_k, dim_in)`.  The concatenated
feature axis is indexed by `(head, column)`, the pair standing for flat
index `head * dimQK + column` of `torch.cat(..., dim=-1)`. -/
structure MHAParams (H dimIn dimQK edgeDim maxPD : ℕ) where
  heads : Fin H → HeadParams dimIn dimQK edgeDim maxPD
  linear : LinearParams (Fin H × Fin dimQK) (Fin dimIn)

/-- `GraphormerMultiHeadAttention.forward`: run every head on the same
inputs, concatenate the per-head outputs along the feature axis and
project through the final linear layer. -/
noncomputable def mhaForward {n E H dimIn dimQK edgeDim maxPD : ℕ}
    (p : MHAParams H dimIn dimQK edgeDim maxPD)
    (x : Fin n → Fin dimIn → ℝ) (edge_attr : Fin E → Fin edgeDim → ℝ)
    (b : Fin n → Fin n → ℝ) (edge_paths : EdgePaths n E)
    (ptr : Option (List ℕ)) : Option (Fin n → Fin dimIn → ℝ) :=
  (collectHeads (fun h => headForward (p.heads h) x edge_attr b edge_paths ptr)).map
    (fun outs => linearForward p.linear (fun i hc => outs hc.1 i hc.2))

/-! ## GraphormerEncoderLayer -/

/-- Learned parameters of an `nn.LayerNorm(D)` layer. -/
structure LayerNormParams (D : ℕ) where
  gamma : Fin D → ℝ
  beta : Fin D → ℝ

/-- Mean of one row, as used by `nn.LayerNorm`. -/
noncomputable def rowMean {D : ℕ} (v : Fin D → ℝ) : ℝ := (∑ t, v t) / (D : ℝ)

/-- Biased variance of one row, as used by `nn.LayerNorm`. -/
noncomputable def rowVar {D : ℕ} (v : Fin D → ℝ) : ℝ :=
  (∑ t, (v t - rowMean v) ^ 2) / (D : ℝ)

/-- `nn.LayerNorm(D)` forward with the default `eps = 1e-5`:
normalise each row to zero mean and unit variance, then apply the learned
elementwise affine transform. -/
noncomputable def layerNormForward {n D : ℕ} (p : LayerNormParams D)
    (x : Fin n → Fin D → ℝ) : Fin n → Fin D → ℝ :=
  fun i d =>
    (x i d - rowMean (x i)) / Real.sqrt (rowVar (x i) + 1e-5) * p.gamma d + p.beta d

/-- The standard Gaussian cumulative distribution function. -/
noncomputable def gaussCdf (z : ℝ) : ℝ :=
  (∫ t in Set.Iic z, Real.exp (-(t ^ 2) / 2)) / Real.sqrt (2 * Real.pi)

/-- `nn.GELU()` (exact form): `gelu(z) = z * Phi(z)` with `Phi` the standard
Gaussian CDF. -/
noncomputable def gelu (z : ℝ) : ℝ := z * gaussCdf z

/-- Parameters of `GraphormerEncoderLayer`: the multi-head attention (built
with `dim_q = dim_k = node_dim`), the two layer norms and the two linear
layers of the feed-forward network. -/
structure EncoderLayerParams (H nodeDim edgeDim maxPD ffDim : ℕ) where
  attention : MHAParams H nodeDim nodeDim edgeDim maxPD
  ln_1 : LayerNormParams nodeDim
  ln_2 : LayerNormParams nodeDim
  ff1 : LinearParams (Fin nodeDim) (Fin ffDim)
  ff2 : LinearParams (Fin ffDim) (Fin nodeDim)

/-- The feed-forward network `nn.Sequential(Linear, GELU, Linear)`. -/
noncomputable def ffForward {n nodeDim ffDim : ℕ}
    (p1 : LinearParams (Fin nodeDim) (Fin ffDim))
    (p2 : LinearParams (Fin ffDim) (Fin nodeDim))
    (x : Fin n → Fin nodeDim → ℝ) : Fin n → Fin nodeDim → ℝ :=
  linearForward p2 (fun i t => gelu (linearForward p1 x i t))

/-- `GraphormerEncoderLayer.forward`:
`x_prime = attention(ln_1(x), ...) + x` and
`x_new = ff(ln_2(x_prime)) + x_prime`; a raised exception in the attention
propagates (`Option`). -/
noncomputable def encoderLayerForward {n E H nodeDim edgeDim maxPD ffDim : ℕ}
    (p : EncoderLayerParams H nodeDim edgeDim maxPD ffDim)
    (x : Fin n → Fin nodeDim → ℝ) (edge_attr : Fin E → Fin edgeDim → ℝ)
    (b : Fin n → Fin n → ℝ) (edge_paths : EdgePaths n E)
    (ptr : Option (List ℕ)) : Option (Fin n → Fin nodeDim → ℝ) :=
  (mhaForward p.attention (layerNormForward p.ln_1 x) edge_attr b edge_paths ptr).map
    (fun att =>
      let xPrime : Fin n → Fin nodeDim → ℝ := fun i d => att i d + x i d
      fun i d => ffForward p.ff1 p.ff2 (layerNormForward p.ln_2 xPrime) i d + xPrime i d)

/-! ## Helper lemmas -/

/-- Closed form of the slice-assignment loops: every block writes the same
value `f i j` at `(i, j)`, so the final entry is `f i j` when some visited
block contains `(i, j)` and the initial entry otherwise. -/
lemma foldl_blocks_apply {n : ℕ} (f init : Fin n → Fin n → ℝ)
    (l : List (ℕ × ℕ)) (i j : Fin n) :
    (l.foldl (fun M pq => fun a b => if inBlock pq a.1 b.1 then f a b else M a b)
        init) i j
      = if ∃ pq ∈ l, inBlock pq i.1 j.1 then f i j else init i j := by
  induction l generalizing init with
  | nil => simp
  | cons pq l ih =>
    rw [List.foldl_cons, ih]
    by_cases hpq : inBlock pq i.1 j.1 <;>
      by_cases hl : ∃ q ∈ l, inBlock q i.1 j.1 <;>
      simp [hpq, hl]

lemma fillBlocks_apply {n : ℕ} (init : Fin n → Fin n → ℝ) (ptr : List ℕ)
    (i j : Fin n) :
    fillBlocks init ptr i j
      = if ∃ pq ∈ blocksOf ptr, inBlock pq i.1 j.1 then 1 else init i j :=
  foldl_blocks_apply (fun _ _ => 1) init (blocksOf ptr) i j

lemma compute_a_some_apply {n d : ℕ} (key query : Fin n → Fin d → ℝ)
    (ptr : List ℕ) (i j : Fin n) :
    compute_a key query (some ptr) i j
      = if ∃ pq ∈ blocksOf ptr, inBlock pq i.1 j.1 then
          dotProd (query i) (key j) / Real.sqrt d
        else 0 := by
  unfold compute_a
  exact foldl_blocks_apply
    (fun a b => dotProd (query a) (key b) / Real.sqrt d)
    (fun _ _ => 0) (blocksOf ptr) i j

/-- Every entry of an `n × n` tensor lies in the single block `(0, n)`
described by the batch pointer `[0, n]`. -/
lemma exists_block_zero_n {n : ℕ} (i j : Fin n) :
    ∃ pq ∈ blocksOf [0, n], inBlock pq i.1 j.1 := by
  refine ⟨(0, n), ?_, ?_⟩
  · simp [blocksOf]
  · exact ⟨Nat.zero_le _, i.2, Nat.zero_le _, j.2⟩

/-! ## Claim theorems -/

/-- C2: for every batch pointer and all inputs, the post-softmax attention
weight matrix inside `GraphormerAttentionHead.forward` is exactly zero at
every entry `(i, j)` not contained in a single block of the pointer — in
particular at every entry whose endpoints lie in different blocks — so
cross-graph attention is exactly zero (forced by the multiplicative
`batch_mask_zeros` factor). -/
theorem head_post_softmax_cross_graph_zero {n : ℕ} (a b c : Fin n → Fin n → ℝ)
    (ptr : List ℕ) (i j : Fin n)
    (h : ∀ pq ∈ blocksOf ptr, ¬ inBlock pq i.1 j.1) :
    postSoftmax a b c (some ptr) i j = 0 := by
  have h' : ¬ ∃ pq ∈ blocksOf ptr, inBlock pq i.1 j.1 := by
    rintro ⟨pq, hmem, hin⟩
    exact h pq hmem hin
  unfold postSoftmax
  have hz : batchMaskZeros (some ptr) i j = 0 := by
    show fillBlocks (fun _ _ => 0) ptr i j = 0
    rw [fillBlocks_apply, if_neg h']
  rw [hz, mul_zero]

/-- C2 witness: the spec scenario `ptr = [0, 2, 5]`, `N = 5`, node `0` of the
first block against node `3` of the second block. -/
theorem head_post_softmax_cross_graph_zero_witness :
    (∀ pq ∈ blocksOf [0, 2, 5], ¬ inBlock pq (0 : ℕ) 3) ∧
    postSoftmax (fun _ _ => 0) (fun _ _ => 0) (fun _ _ => 0) (some [0, 2, 5])
      (⟨0, by norm_num⟩ : Fin 5) ⟨3, by norm_num⟩ = 0 :=
  ⟨by decide,
   head_post_softmax_cross_graph_zero (fun _ _ => 0) (fun _ _ => 0) (fun _ _ => 0)
     [0, 2, 5] ⟨0, by norm_num⟩ ⟨3, by norm_num⟩ (by decide)⟩

/-- C3 counterexample: with `ptr = [0, 2, 5]`, spatial bias `b = -1`
everywhere and `a = c = 0`, the out-of-block biased score at `(0, 3)` is
`-1`, and the masked pre-softmax entry is `(-1) * (-1e6) = 1e6`: a large
positive value, not a large negative one, because the mask is
multiplicative rather than additive. -/
theorem maskedScores_negative_score_counterexample :
    maskedScores (fun _ _ => 0) (fun _ _ => -1) (fun _ _ => 0) (some [0, 2, 5])
        (⟨0, by norm_num⟩ : Fin 5) ⟨3, by norm_num⟩ = 1000000 ∧
      ¬ maskedScores (fun _ _ => 0) (fun _ _ => -1) (fun _ _ => 0) (some [0, 2, 5])
        (⟨0, by norm_num⟩ : Fin 5) ⟨3, by norm_num⟩ < 0 := by
  have h' : ¬ ∃ pq ∈ blocksOf [0, 2, 5], inBlock pq (0 : ℕ) 3 := by decide
  have heq : maskedScores (fun _ _ => 0) (fun _ _ => -1) (fun _ _ => 0)
      (some [0, 2, 5]) (⟨0, by norm_num⟩ : Fin 5) ⟨3, by norm_num⟩ = 1000000 := by
    unfold maskedScores
    have hm : batchMaskNegInf (some [0, 2, 5]) (⟨0, by norm_num⟩ : Fin 5)
        ⟨3, by norm_num⟩ = -1000000 := by
      show fillBlocks (fun _ _ => -1000000) [0, 2, 5] _ _ = -1000000
      rw [fillBlocks_apply, if_neg h']
    rw [hm]
    norm_num
  exact ⟨heq, by rw [heq]; norm_num⟩

/-- C3 (amended): in-block entries of the biased score `a + b + c` pass
through the mask unchanged (factor `1`), but out-of-block entries are
*multiplied* by `-1e6` rather than shifted by an additive offset: the
masked entry is `-1e6` times the biased score, hence large negative only
when the biased score is positive. -/
theorem maskedScores_multiplicative_mask {n : ℕ} (a b c : Fin n → Fin n → ℝ)
    (ptr : List ℕ) (i j : Fin n) :
    maskedScores a b c (some ptr) i j
      = if ∃ pq ∈ blocksOf ptr, inBlock pq i.1 j.1 then
          a i j + b i j + c i j
        else (a i j + b i j + c i j) * (-1000000) := by
  unfold maskedScores
  have hm : batchMaskNegInf (some ptr) i j = fillBlocks (fun _ _ => -1000000) ptr i j := rfl
  rw [hm, fillBlocks_apply]
  split <;> ring

/-- C5: `GraphormerAttentionHead.compute_a` returns the raw attention scores
`Q·Kᵗ / sqrt(d)` — the divisor `query.size(-1) ** 0.5` equals
`sqrt(dim_k)` because `query.mm(key.transpose(0, 1))` forces
`dim_q = dim_k`.  Without a batch pointer the full matrix is computed
(all nodes one graph); with a pointer, in-block entries hold the scaled
scores and off-block entries remain zero. -/
theorem compute_a_spec {n d : ℕ} (key query : Fin n → Fin d → ℝ)
    (ptr : List ℕ) (i j : Fin n) :
    compute_a key query none i j = dotProd (query i) (key j) / Real.sqrt d ∧
    compute_a key query (some ptr) i j
      = if ∃ pq ∈ blocksOf ptr, inBlock pq i.1 j.1 then
          dotProd (query i) (key j) / Real.sqrt d
        else 0 :=
  ⟨rfl, compute_a_some_apply key query ptr i j⟩

/-- C7: `GraphormerAttentionHead.forward` with `ptr = None` equals the same
forward with `ptr = [0, N]`, a single block covering all `N` nodes. -/
theorem headForward_none_eq_single_block {n E dimIn dimQK edgeDim maxPD : ℕ}
    (p : HeadParams dimIn dimQK edgeDim maxPD)
    (x : Fin n → Fin dimIn → ℝ) (edge_attr : Fin E → Fin edgeDim → ℝ)
    (b : Fin n → Fin n → ℝ) (edge_paths : EdgePaths n E) :
    headForward p x edge_attr b edge_paths none
      = headForward p x edge_attr b edge_paths (some [0, n]) := by
  have ha : ∀ i j : Fin n,
      compute_a (linearForward p.k x) (linearForward p.q x) (some [0, n]) i j
        = compute_a (linearForward p.k x) (linearForward p.q x) none i j := by
    intro i j
    rw [compute_a_some_apply, if_pos (exists_block_zero_n i j)]
    rfl
  have hmNeg : ∀ i j : Fin n, batchMaskNegInf (some [0, n]) i j = (1 : ℝ) := by
    intro i j
    show fillBlocks (fun _ _ => -1000000) [0, n] i j = 1
    rw [fillBlocks_apply, if_pos (exists_block_zero_n i j)]
  have hmZ : ∀ i j : Fin n, batchMaskZeros (some [0, n]) i j = (1 : ℝ) := by
    intro i j
    show fillBlocks (fun _ _ => 0) [0, n] i j = 1
    rw [fillBlocks_apply, if_pos (exists_block_zero_n i j)]
  have hps : ∀ (c : Fin n → Fin n → ℝ) (i j : Fin n),
      postSoftmax (compute_a (linearForward p.k x) (linearForward p.q x) none)
          b c none i j
        = postSoftmax (compute_a (linearForward p.k x) (linearForward p.q x)
            (some [0, n])) b c (some [0, n]) i j := by
    intro c i j
    unfold postSoftmax maskedScores softmaxRow
    simp only [ha, hmNeg, hmZ]
    have hnone : ∀ i j : Fin n, batchMaskNegInf (none : Option (List ℕ)) i j = (1 : ℝ) := by
      intro _ _
      rfl
    have hnoneZ : ∀ i j : Fin n, batchMaskZeros (none : Option (List ℕ)) i j = (1 : ℝ) := by
      intro _ _
      show (0 : ℝ) + 1 = 1
      norm_num
    simp only [hnone, hnoneZ]
  unfold headForward
  refine congrArg (fun f => Option.map f
    (edgeEncodingForward p.edge_encoding edge_attr edge_paths)) ?_
  funext c i o
  exact Finset.sum_congr rfl (fun j _ => by rw [hps c i j])

/-- C6: `CentralityEncoding.forward` adds to each row of `X` the embedding
rows selected by the clamped degrees: the selected `z_in` row index is
`min(in_degree, max_in_degree - 1)` (likewise for `z_out`), so every
degree `≥ max_degree` safely indexes row `max_degree - 1`.  The last two
conjuncts state the clamp explicitly for large degrees. -/
theorem centralityForward_spec {n maxIn maxOut D : ℕ}
    (p : CentralityParams maxIn maxOut D) (hin : 0 < maxIn) (hout : 0 < maxOut)
    (x : Fin n → Fin D → ℝ) (edges : List (Fin n × Fin n)) :
    (∀ i : Fin n, ∃ kin : Fin maxIn, ∃ kout : Fin maxOut,
        kin.1 = min (inDegree edges i) (maxIn - 1) ∧
        kout.1 = min (outDegree edges i) (maxOut - 1) ∧
        ∀ d, centralityForward p hin hout x edges i d
            = x i d + p.z_in kin d + p.z_out kout d) ∧
    (∀ v, maxIn ≤ v → decrease_to_max_value v (maxIn - 1) = maxIn - 1) ∧
    (∀ v, maxOut ≤ v → decrease_to_max_value v (maxOut - 1) = maxOut - 1) := by
  refine ⟨fun i => ?_, fun v hv => ?_, fun v hv => ?_⟩
  · refine ⟨⟨decrease_to_max_value (inDegree edges i) (maxIn - 1), by
        have h := decrease_to_max_value_le (inDegree edges i) (maxIn - 1); omega⟩,
      ⟨decrease_to_max_value (outDegree edges i) (maxOut - 1), by
        have h := decrease_to_max_value_le (outDegree edges i) (maxOut - 1); omega⟩,
      decrease_to_max_value_eq_min _ _, decrease_to_max_value_eq_min _ _,
      fun d => rfl⟩
  · rw [decrease_to_max_value_eq_min]
    omega
  · rw [decrease_to_max_value_eq_min]
    omega

/-- C6 witness: the spec's end-to-end scenario — `N = 3`, directed edges
`0 → 1` and `1 → 2`, `max_in_degree = max_out_degree = 4`. -/
theorem centralityForward_spec_witness :
    (0 < 4) ∧
    ((∀ i : Fin 3, ∃ kin : Fin 4, ∃ kout : Fin 4,
        kin.1 = min (inDegree [((0 : Fin 3), (1 : Fin 3)), (1, 2)] i) 3 ∧
        kout.1 = min (outDegree [((0 : Fin 3), (1 : Fin 3)), (1, 2)] i) 3 ∧
        ∀ d : Fin 1, centralityForward
            (⟨fun k _ => (k.1 : ℝ), fun k _ => (k.1 : ℝ) + 10⟩ :
              CentralityParams 4 4 1)
            (by norm_num) (by norm_num) (fun _ _ => 0)
            [((0 : Fin 3), (1 : Fin 3)), (1, 2)] i d
          = (fun _ _ => (0 : ℝ)) i d
            + (fun (k : Fin 4) (_ : Fin 1) => (k.1 : ℝ)) kin d
            + (fun (k : Fin 4) (_ : Fin 1) => (k.1 : ℝ) + 10) kout d) ∧
      (∀ v, 4 ≤ v → decrease_to_max_value v 3 = 3) ∧
      (∀ v, 4 ≤ v → decrease_to_max_value v 3 = 3)) :=
  ⟨by norm_num,
   centralityForward_spec
     (⟨fun k _ => (k.1 : ℝ), fun k _ => (k.1 : ℝ) + 10⟩ : CentralityParams 4 4 1)
     (by norm_num) (by norm_num) (fun _ _ => 0)
     [((0 : Fin 3), (1 : Fin 3)), (1, 2)]⟩

/-- C1 evaluation at the failing input: a two-edge path
`edge_paths = {0: {1: [0, 1]}}` with `max_path_distance = 2`.  The code
computes `(edge_weights[:2] * edge_attr[[0, 1]]).sum(dim=1)` — a
length-two vector of per-position dot products, never summed over the
positions — and assigning it to the scalar cell `cij[0][1]` raises a
broadcast `RuntimeError` (`none`) instead of storing the claimed sum. -/
theorem edgeEncoding_two_edge_path_raises :
    edgeEncodingForward (⟨fun _ _ => 1⟩ : EdgeParams 1 2) (fun _ _ => (1 : ℝ))
      [((0 : Fin 2), [((1 : Fin 2), [(0 : Fin 2), (1 : Fin 2)])])] = none := rfl

/-- C4 evaluation: a pair present in the mapping with an *empty* path makes
`EdgeEncoding.forward` raise (`(edge_weights[:0] * edge_attr[[]]).sum(dim=1)`
is a zero-element tensor that cannot broadcast into the scalar cell), so
the forward does not complete with a zero entry; with an empty
`edge_paths` mapping the loop body never runs and the output is the
all-zero `N × N` matrix. -/
theorem edgeEncoding_empty_path_raises :
    edgeEncodingForward (⟨fun _ _ => 1⟩ : EdgeParams 1 2) (fun _ _ => (1 : ℝ))
        [((0 : Fin 2), [((1 : Fin 2), ([] : List (Fin 2)))])] = none ∧
    edgeEncodingForward (⟨fun _ _ => 1⟩ : EdgeParams 1 2) (fun _ _ => (1 : ℝ))
        ([] : EdgePaths 2 2) = some (fun _ _ => 0) :=
  ⟨rfl, rfl⟩

/-- C8: when all coordinate rows are identical, the pairwise distance matrix
of `SpatialEncoding.forward` is exactly zero (each `sqrt` argument
`‖a‖² − 2a·b + ‖b‖²` is exactly zero), and — given nonzero std
parameters — neither NaN hazard of the pipeline (sqrt of a negative,
division by a zero `2*std²`) occurs, so the final bias matrix holds plain
real numbers. -/
theorem spatial_identical_coords_zero_dist {n D H : ℕ} (p : SpatialParams H D)
    (coords : Fin n → Fin 3 → ℝ) (v : Fin 3 → ℝ)
    (hc : ∀ i, coords i = v) (hstd : ∀ h, p.stds h ≠ 0) :
    (∀ i j, distances coords i j = 0) ∧ spatialNaNFree p coords := by
  have harg : ∀ i j : Fin n, distArg coords i j = 0 := by
    intro i j
    unfold distArg sqNorm dotProd
    rw [hc i, hc j]
    rw [Real.sq_sqrt (by positivity)]
    have hvv : (∑ t, v t * v t) = ∑ t, v t ^ 2 :=
      Finset.sum_congr rfl (fun t _ => (pow_two (v t)).symm)
    rw [hvv]
    ring
  refine ⟨fun i j => ?_, fun i j => le_of_eq (harg i j).symm, hstd⟩
  unfold distances
  rw [harg i j, Real.sqrt_zero]

/-- C8 witness: one node at the origin, a single head with std `1`. -/
theorem spatial_identical_coords_zero_dist_witness :
    (∀ i : Fin 1, (fun (_ : Fin 1) (_ : Fin 3) => (0 : ℝ)) i = fun _ : Fin 3 => (0 : ℝ)) ∧
    (∀ h : Fin 1, (⟨fun _ => 0, fun _ => 1, fun _ => 0⟩ : SpatialParams 1 1).stds h ≠ 0) ∧
    ((∀ i j : Fin 1, distances (fun (_ : Fin 1) (_ : Fin 3) => (0 : ℝ)) i j = 0) ∧
      spatialNaNFree (⟨fun _ => 0, fun _ => 1, fun _ => 0⟩ : SpatialParams 1 1)
        (fun (_ : Fin 1) (_ : Fin 3) => (0 : ℝ))) :=
  ⟨fun _ => rfl, fun _ => one_ne_zero,
   spatial_identical_coords_zero_dist
     (⟨fun _ => 0, fun _ => 1, fun _ => 0⟩ : SpatialParams 1 1)
     (fun _ _ => 0) (fun _ => 0) (fun _ => rfl) (fun _ => one_ne_zero)⟩

/-- C9: `GraphormerEncoderLayer.forward` returns exactly
`FFN(LayerNorm2(x_prime)) + x_prime` with
`x_prime = MHA(LayerNorm1(x)) + x` and `FFN = Linear → GELU → Linear`
(spelled out on the right-hand side), a single tensor of the input's
shape `(N, node_dim)` (enforced here by the result type). -/
theorem encoderLayer_forward_spec {n E H nodeDim edgeDim maxPD ffDim : ℕ}
    (p : EncoderLayerParams H nodeDim edgeDim maxPD ffDim)
    (x : Fin n → Fin nodeDim → ℝ) (edge_attr : Fin E → Fin edgeDim → ℝ)
    (b : Fin n → Fin n → ℝ) (edge_paths : EdgePaths n E) (ptr : Option (List ℕ)) :
    encoderLayerForward p x edge_attr b edge_paths ptr
      = (mhaForward p.attention (layerNormForward p.ln_1 x) edge_attr b
          edge_paths ptr).map
          (fun att => fun i d =>
            linearForward p.ff2
              (fun a t => gelu (linearForward p.ff1
                (layerNormForward p.ln_2 (fun a2 d2 => att a2 d2 + x a2 d2)) a t)) i d
              + (att i d + x i d)) := rfl

/-- Concrete one-node, one-head, all-dimensions-one parameter set used by
the determinism witness. -/
noncomputable def exEncoderParams : EncoderLayerParams 1 1 1 1 1 :=
  ⟨⟨fun _ => ⟨⟨fun _ _ => 0⟩, ⟨fun _ _ => 0, fun _ => 0⟩, ⟨fun _ _ => 0, fun _ => 0⟩,
      ⟨fun _ _ => 0, fun _ => 0⟩⟩, ⟨fun _ _ => 0, fun _ => 0⟩⟩,
   ⟨fun _ => 1, fun _ => 0⟩, ⟨fun _ => 1, fun _ => 0⟩,
   ⟨fun _ _ => 0, fun _ => 0⟩, ⟨fun _ _ => 0, fun _ => 0⟩⟩

/-- C10: `GraphormerEncoderLayer.forward` is a pure function of its
parameters and inputs — two calls with equal parameters and equal inputs
(and no update in between) return equal outputs; no internal state
survives a call. -/
theorem encoderLayer_deterministic {n E H nodeDim edgeDim maxPD ffDim : ℕ}
    (p q : EncoderLayerParams H nodeDim edgeDim maxPD ffDim)
    (x y : Fin n → Fin nodeDim → ℝ) (ea eb : Fin E → Fin edgeDim → ℝ)
    (b1 b2 : Fin n → Fin n → ℝ) (ep1 ep2 : EdgePaths n E)
    (ptr1 ptr2 : Option (List ℕ))
    (hpq : p = q) (hxy : x = y) (hea : ea = eb) (hb : b1 = b2)
    (hep : ep1 = ep2) (hptr : ptr1 = ptr2) :
    encoderLayerForward p x ea b1 ep1 ptr1 = encoderLayerForward q y eb b2 ep2 ptr2 := by
  subst hpq hxy hea hb hep hptr
  rfl

/-- C10 witness: two identical calls on a one-node graph. -/
theorem encoderLayer_deterministic_witness :
    exEncoderParams = exEncoderParams ∧
    encoderLayerForward exEncoderParams (fun _ _ => 0) (fun _ _ => 0) (fun _ _ => 0)
        ([] : EdgePaths 1 1) none
      = encoderLayerForward exEncoderParams (fun _ _ => 0) (fun _ _ => 0)
        (fun _ _ => 0) ([] : EdgePaths 1 1) none :=
  ⟨rfl,
   encoderLayer_deterministic exEncoderParams exEncoderParams
     (fun _ _ => 0) (fun _ _ => 0) (fun _ _ => 0) (fun _ _ => 0)
     (fun _ _ => 0) (fun _ _ => 0) ([] : EdgePaths 1 1) ([] : EdgePaths 1 1)
     none none rfl rfl rfl rfl rfl rfl⟩

end GraphormerLayers
